import Mathlib

/-!
Verification development for the TCP chat server (`server.py`), a
thread-per-client line-protocol chat server.  The shallow embedding below
translates the registry state (`ChatServer.clients`, `ChatServer.usernames`,
`ChatServer.last_activity`), the login state machine (`_handle_login`), the
command dispatcher (`_process_command`), the routing primitives (`_send`,
`_broadcast`, `_send_private`), the teardown routine (`_remove_client`) and
the idle reaper cycle (`_check_idle_clients`) into pure Lean functions.

Connections (sockets) are modelled as opaque `Nat` handles; wall-clock
times as `Nat`; Python dicts as insertion-ordered association lists (Python
dict semantics: assignment replaces in place or appends, deletion removes
the key, iteration follows insertion order).  Side effects are made
explicit: every attempted `sendall` to a connection becomes an event
`(conn, message)` in an output list.
-/

set_option autoImplicit false

namespace ChatSrv

/-- Opaque connection handle (stands for a `socket.socket` object). -/
abbrev Conn := Nat

/-- Python `d.get(k)` / `d[k]` on an association list. -/
def lookupA {α β : Type} [DecidableEq α] : List (α × β) → α → Option β
  | [], _ => none
  | (a, b) :: t, k => if a = k then some b else lookupA t k

/-- Python `d[k] = v`: replace the binding in place, or append if absent. -/
def setA {α β : Type} [DecidableEq α] : List (α × β) → α → β → List (α × β)
  | [], k, v => [(k, v)]
  | (a, b) :: t, k, v => if a = k then (k, v) :: t else (a, b) :: setA t k v

/-- Python `del d[k]` (guarded by `if k in d`, so absent keys are a no-op). -/
def delA {α β : Type} [DecidableEq α] : List (α × β) → α → List (α × β)
  | [], _ => []
  | (a, b) :: t, k => if a = k then t else (a, b) :: delA t k

/-- The server's shared registry state: `ChatServer.clients`
(socket → username), `ChatServer.usernames` (username → socket) and
`ChatServer.last_activity` (socket → timestamp of last received data). -/
structure ServerState where
  clients : List (Conn × String)
  usernames : List (String × Conn)
  lastActivity : List (Conn × Nat)
deriving DecidableEq

/-- `self.last_activity[conn] = time.time()` — performed right after accept
(`_handle_client` lines 123-124) and on every successful `recv` in both the
login loop and the main loop. -/
def touchActivity (st : ServerState) (c : Conn) (now : Nat) : ServerState :=
  { st with lastActivity := setA st.lastActivity c now }

/-- Python `str.strip()` on the character list: drop leading and trailing
whitespace.  (Python also strips `\x0b`/`\x0c`; no protocol line contains
those, so the difference is immaterial.) -/
def stripChars (l : List Char) : List Char :=
  ((l.dropWhile Char.isWhitespace).reverse.dropWhile Char.isWhitespace).reverse

/-- Python `s.strip()`. -/
def pyStrip (s : String) : String := String.mk (stripChars s.data)

/-- Python `s.startswith(p)`. -/
def pyStartsWith (s p : String) : Bool := p.data.isPrefixOf s.data

/-- Python `s[n:]` (character-based slicing). -/
def pyDrop (s : String) (n : Nat) : String := String.mk (s.data.drop n)

/-- `line[6:].strip()` — the username extracted from a `LOGIN ` line. -/
def loginName (line : String) : String := pyStrip (pyDrop line 6)

/-- One iteration of the per-line body of `_handle_login` (lines 193-221):
strip the line; skip it if empty; on `LOGIN <name>` validate and register;
any other line gets `ERR must-login-first`.  Returns the updated state, the
attempted sends, and `some username` exactly when login succeeded (the
Python function returns the username, moving the client to the
authenticated main loop). -/
def handleLoginLine (st : ServerState) (c : Conn) (rawLine : String) :
    ServerState × List (Conn × String) × Option String :=
  if pyStrip rawLine = "" then (st, [], none)
  else if pyStartsWith (pyStrip rawLine) "LOGIN " = true then
    if loginName (pyStrip rawLine) = "" then (st, [(c, "ERR invalid-username")], none)
    else if (lookupA st.usernames (loginName (pyStrip rawLine))).isSome = true then
      (st, [(c, "ERR username-taken")], none)
    else
      ({ st with clients := setA st.clients c (loginName (pyStrip rawLine)),
                 usernames := setA st.usernames (loginName (pyStrip rawLine)) c },
       [(c, "OK")], some (loginName (pyStrip rawLine)))
  else (st, [(c, "ERR must-login-first")], none)

/-- Result of one call to `_send` (lines 264-269), made observable.  The
raw `conn.sendall` raises when the connection is broken; `_send` wraps it in
`try/except`, prints the error, and returns `None` in every case.
`delivered`: whether the bytes reached the peer; `raised`: whether an
exception escaped `_send`; `returned`: the success information the caller
receives (Python always returns `None`, i.e. `none`). -/
structure SendOutcome where
  delivered : Bool
  raised : Bool
  returned : Option Bool
deriving DecidableEq

/-- `conn.sendall((message + chr(10)).encode())`: fails on a dead
connection. -/
def sendallRaw (dead : List Conn) (c : Conn) (_message : String) : Except String Unit :=
  if c ∈ dead then Except.error "broken pipe" else Except.ok ()

/-- `_send` (lines 264-269): `try: conn.sendall(...) except Exception as e:
print(...)`.  The exception is caught and only printed; the function body
ends without a return statement, so the caller always gets `None`. -/
def sendOp (dead : List Conn) (c : Conn) (message : String) : SendOutcome :=
  match sendallRaw dead c message with
  | Except.ok _ => { delivered := true, raised := false, returned := none }
  | Except.error _ => { delivered := false, raised := false, returned := none }

/-- `_broadcast` (lines 271-279): iterate over `self.clients.keys()` and
attempt `sendall` to every connection other than `exclude` (per-recipient
failures are caught and printed).  Returns the list of attempted sends in
iteration order. -/
def broadcastMsg : List (Conn × String) → String → Option Conn → List (Conn × String)
  | [], _, _ => []
  | (a, _) :: t, message, exclude =>
    if some a = exclude then broadcastMsg t message exclude
    else (a, message) :: broadcastMsg t message exclude

/-- `_send_private` (lines 281-290): look up the target username; if absent
send `ERR user-not-found <to_user>` to the sender, otherwise send
`DM <from_user> <text>` to the resolved connection only. -/
def sendPrivate (st : ServerState) (senderConn : Conn)
    (fromUser toUser text : String) : List (Conn × String) :=
  match lookupA st.usernames toUser with
  | none => [(senderConn, "ERR user-not-found " ++ toUser)]
  | some target => [(target, "DM " ++ fromUser ++ " " ++ text)]

/-- `line[4:].strip()` — the text extracted from an `MSG ` line. -/
def msgText (line : String) : String := pyStrip (pyDrop line 4)

/-- Python `s.split(' ', 1)` restricted to the case `len(parts) >= 2`:
`some (before, after)` around the first space, `none` when there is no
space (so `split` yielded fewer than two parts). -/
def splitFirstSpace : List Char → Option (List Char × List Char)
  | [] => none
  | ch :: t =>
    if ch = ' ' then some ([], t)
    else match splitFirstSpace t with
      | some (a, b) => some (ch :: a, b)
      | none => none

/-- `line[3:].strip().split(' ', 1)` with the `len(parts) >= 2` check of
the DM branch: `some (target_user, text)` or `none` (malformed DM). -/
def dmArgs (s : String) : Option (String × String) :=
  (splitFirstSpace s.data).map (fun p => (String.mk p.1, String.mk p.2))

/-- `_process_command` (lines 231-262): dispatch one non-empty stripped
line from a logged-in user.  The function never mutates the registry: it
only produces sends (broadcast for `MSG`, the `USER` listing for `WHO`,
unicast for `DM`, `PONG` for `PING`, and silence for anything else). -/
def processCommand (st : ServerState) (c : Conn) (username : String)
    (line : String) : List (Conn × String) :=
  if pyStartsWith line "MSG " = true then
    if msgText line = "" then []
    else broadcastMsg st.clients ("MSG " ++ username ++ " " ++ msgText line) (some c)
  else if line = "WHO" then
    st.usernames.map (fun p => (c, "USER " ++ p.1))
  else if pyStartsWith line "DM " = true then
    match dmArgs (pyStrip (pyDrop line 3)) with
    | some (target, text) => sendPrivate st c username target text
    | none => [(c, "ERR invalid-dm-format")]
  else if line = "PING" then [(c, "PONG")]
  else []

/-- The per-line body of the authenticated main loop (`_handle_client`
lines 153-158): strip the line, silently skip it if empty, otherwise
dispatch it through `_process_command`. -/
def handleClientLine (st : ServerState) (c : Conn) (username : String)
    (rawLine : String) : List (Conn × String) :=
  if pyStrip rawLine = "" then [] else processCommand st c username (pyStrip rawLine)

/-- One successful `recv` in the authenticated main loop (lines 139-158):
update `last_activity[conn]`, then process each complete line. -/
def recvStepAuth (st : ServerState) (c : Conn) (username : String) (now : Nat)
    (lines : List String) : ServerState × List (Conn × String) :=
  let st1 := touchActivity st c now
  (st1, lines.foldl (fun acc l => acc ++ handleClientLine st1 c username l) [])

/-- `_remove_client` (lines 292-312), the shared teardown routine: delete
the connection from `clients`, the username (when given) from `usernames`,
the connection from `last_activity` (each deletion guarded by a membership
test, hence a no-op when already absent), close the socket, and then — if
the `username` argument is non-None — broadcast `INFO <username>
disconnected` to the clients now in the registry (no exclusion). -/
def removeClient (st : ServerState) (c : Conn) (username : Option String) :
    ServerState × List (Conn × String) :=
  let st1 : ServerState :=
    { clients := delA st.clients c
      usernames := match username with
        | some u => delA st.usernames u
        | none => st.usernames
      lastActivity := delA st.lastActivity c }
  match username with
  | some u => (st1, broadcastMsg st1.clients ("INFO " ++ u ++ " disconnected") none)
  | none => (st1, [])

/-- The idle-notice step of `_check_idle_clients` (lines 329-335): only a
client with a truthy username gets the best-effort `ERR idle-timeout`
send; the send's outcome is discarded. -/
def reaperNotice (username : Option String) (c : Conn) : List (Conn × String) :=
  match username with
  | some _ => [(c, "ERR idle-timeout")]
  | none => []

/-- One cycle of `_check_idle_clients` (lines 314-336): under the lock,
snapshot every connection whose `last_activity` age strictly exceeds
`idle_timeout` together with `clients.get(conn)`; then, outside the lock,
for each one attempt the idle notice (named sessions only) and call
`_remove_client`.  `dead` lists the connections whose `sendall` would fail;
the code discards every send outcome, so it influences nothing. -/
def checkIdleCycle (dead : List Conn) (idleTimeout now : Nat)
    (st : ServerState) : ServerState × List (Conn × String) :=
  let toRemove := (st.lastActivity.filter (fun p => idleTimeout < now - p.2)).map
      (fun p => (p.1, lookupA st.clients p.1))
  toRemove.foldl
    (fun acc cu =>
      let _ := (reaperNotice cu.2 cu.1).map (fun e => sendOp dead e.1 e.2)
      let r := removeClient acc.1 cu.1 cu.2
      (r.1, acc.2 ++ reaperNotice cu.2 cu.1 ++ r.2))
    (st, [])

/-! ## General lemmas about the registry primitives -/

theorem lookupA_setA_self {α β : Type} [DecidableEq α] (l : List (α × β)) (k : α) (v : β) :
    lookupA (setA l k v) k = some v := by
  induction l with
  | nil => simp [setA, lookupA]
  | cons p t ih =>
    obtain ⟨a, b⟩ := p
    by_cases h : a = k
    · simp [setA, h, lookupA]
    · simp [setA, h, lookupA, ih]

theorem mem_broadcastMsg {x : Conn} {m : String} :
    ∀ {l : List (Conn × String)} {msg : String} {ex : Option Conn},
      (x, m) ∈ broadcastMsg l msg ex → x ∈ l.map Prod.fst ∧ m = msg ∧ some x ≠ ex := by
  intro l
  induction l with
  | nil => intro msg ex h; simp [broadcastMsg] at h
  | cons p t ih =>
    intro msg ex h
    obtain ⟨a, b⟩ := p
    by_cases hex : some a = ex
    · rw [broadcastMsg, if_pos hex] at h
      obtain ⟨h1, h2, h3⟩ := ih h
      exact ⟨List.mem_cons_of_mem _ h1, h2, h3⟩
    · rw [broadcastMsg, if_neg hex] at h
      rcases List.mem_cons.mp h with h0 | h0
      · obtain ⟨hx, hm⟩ := Prod.mk.injEq .. ▸ h0
        exact ⟨by simp [hx], hm, hx ▸ hex⟩
      · obtain ⟨h1, h2, h3⟩ := ih h0
        exact ⟨List.mem_cons_of_mem _ h1, h2, h3⟩

theorem count_broadcastMsg :
    ∀ (l : List (Conn × String)) (msg : String) (ex : Option Conn) (d : Conn),
      (l.map Prod.fst).Nodup → d ∈ l.map Prod.fst → some d ≠ ex →
      (broadcastMsg l msg ex).count (d, msg) = 1 := by
  intro l
  induction l with
  | nil => intro msg ex d _ hd _; simp at hd
  | cons p t ih =>
    intro msg ex d hnd hd hex
    obtain ⟨a, b⟩ := p
    simp only [List.map_cons, List.nodup_cons] at hnd
    obtain ⟨ha, hnd2⟩ := hnd
    simp only [List.map_cons, List.mem_cons] at hd
    by_cases hda : d = a
    · subst hda
      rw [broadcastMsg, if_neg hex]
      rw [List.count_cons_self]
      have hzero : (broadcastMsg t msg ex).count (d, msg) = 0 := by
        apply List.count_eq_zero.mpr
        intro hmem
        exact ha (mem_broadcastMsg hmem).1
      rw [hzero]
    · have hdt : d ∈ t.map Prod.fst := hd.resolve_left hda
      by_cases hexa : some a = ex
      · rw [broadcastMsg, if_pos hexa]
        exact ih msg ex d hnd2 hdt hex
      · rw [broadcastMsg, if_neg hexa]
        rw [List.count_cons_of_ne (by simp [hda]) _]
        exact ih msg ex d hnd2 hdt hex

/-- A sample registry used by the concrete witnesses: `alice`, `bob` and
`carol` logged in on connections 1, 2, 3. -/
def stWit : ServerState :=
  { clients := [(1, "alice"), (2, "bob"), (3, "carol")]
    usernames := [("alice", 1), ("bob", 2), ("carol", 3)]
    lastActivity := [(1, 0), (2, 0), (3, 0)] }

/-- Claim C5: when an authenticated client sends `MSG <text>` and the
trimmed text is non-empty, `_process_command` broadcasts
`MSG <username> <text>` excluding the sender's connection: the sender
receives nothing, and every other registered client (the keys of
`self.clients`, unique in a dict) receives exactly one copy; when the
trimmed text is empty, no send is attempted at all. -/
theorem msg_broadcast_spec (st : ServerState) (c : Conn) (u line : String)
    (hl : pyStartsWith line "MSG " = true) :
    (msgText line = "" → processCommand st c u line = []) ∧
    (msgText line ≠ "" →
      processCommand st c u line =
        broadcastMsg st.clients ("MSG " ++ u ++ " " ++ msgText line) (some c) ∧
      (∀ m, (c, m) ∉ processCommand st c u line) ∧
      ((st.clients.map Prod.fst).Nodup →
        ∀ d, d ∈ st.clients.map Prod.fst → d ≠ c →
          (processCommand st c u line).count
            (d, "MSG " ++ u ++ " " ++ msgText line) = 1)) := by
  constructor
  · intro he
    unfold processCommand
    rw [if_pos hl, if_pos he]
  · intro hne
    have hpc : processCommand st c u line =
        broadcastMsg st.clients ("MSG " ++ u ++ " " ++ msgText line) (some c) := by
      unfold processCommand
      rw [if_pos hl, if_neg hne]
    refine ⟨hpc, ?_, ?_⟩
    · intro m hm
      rw [hpc] at hm
      exact (mem_broadcastMsg hm).2.2 rfl
    · intro hnd d hdm hdc
      rw [hpc]
      exact count_broadcastMsg st.clients _ (some c) d hnd hdm (by simpa using hdc)

/-- Witness for C5 at a concrete input: `alice` (connection 1) sends
`MSG hello` in the three-client registry. -/
theorem msg_broadcast_spec_wit :
    processCommand stWit 1 "alice" "MSG hello" =
      broadcastMsg stWit.clients ("MSG " ++ "alice" ++ " " ++ msgText "MSG hello") (some 1) ∧
    (∀ m, (1, m) ∉ processCommand stWit 1 "alice" "MSG hello") ∧
    (processCommand stWit 1 "alice" "MSG hello").count
      (2, "MSG " ++ "alice" ++ " " ++ msgText "MSG hello") = 1 := by
  have h := (msg_broadcast_spec stWit 1 "alice" "MSG hello" (by decide)).2 (by decide)
  exact ⟨h.1, h.2.1, h.2.2 (by decide) 2 (by decide) (by decide)⟩

/-- Claim C6: `_send_private` routing.  If the target username is bound in
the registry, the single attempted send is `DM <fromUser> <text>` to the
target's connection (nothing is broadcast, nobody else receives anything);
if the target is absent, the single attempted send is
`ERR user-not-found <toUser>` to the sender's connection. -/
theorem dm_routing (st : ServerState) (sc : Conn) (fromUser toUser text : String) :
    (∀ tc, lookupA st.usernames toUser = some tc →
      sendPrivate st sc fromUser toUser text =
        [(tc, "DM " ++ fromUser ++ " " ++ text)]) ∧
    (lookupA st.usernames toUser = none →
      sendPrivate st sc fromUser toUser text =
        [(sc, "ERR user-not-found " ++ toUser)]) := by
  constructor
  · intro tc h
    unfold sendPrivate
    rw [h]
  · intro h
    unfold sendPrivate
    rw [h]

/-- Witness for C6: `alice` (connection 1) DMs the present `bob`
(connection 2) and the absent `dave`. -/
theorem dm_routing_wit :
    sendPrivate stWit 1 "alice" "bob" "hi" = [(2, "DM " ++ "alice" ++ " " ++ "hi")] ∧
    sendPrivate stWit 1 "alice" "dave" "hi" = [(1, "ERR user-not-found " ++ "dave")] :=
  ⟨(dm_routing stWit 1 "alice" "bob" "hi").1 2 (by decide),
   (dm_routing stWit 1 "alice" "dave" "hi").2 (by decide)⟩

/-- Claim C4: during `_handle_login`, any non-empty stripped line that is
not a `LOGIN ` command is answered with `ERR must-login-first` sent to that
connection only, and the registry state is returned unchanged. -/
theorem pre_login_rejected (st : ServerState) (c : Conn) (line : String)
    (hne : pyStrip line ≠ "") (hnl : pyStartsWith (pyStrip line) "LOGIN " = false) :
    handleLoginLine st c line = (st, [(c, "ERR must-login-first")], none) := by
  unfold handleLoginLine
  rw [if_neg hne, if_neg (by simp [hnl])]

/-- Witness for C4: the non-LOGIN line `HELLO x` before authentication. -/
theorem pre_login_rejected_wit :
    handleLoginLine stWit 4 "HELLO x" = (stWit, [(4, "ERR must-login-first")], none) :=
  pre_login_rejected stWit 4 "HELLO x" (by decide) (by decide)

/-- Claim C9: a line whose stripped form is the bare keyword `LOGIN` (no
trailing space) does not satisfy `line.startswith('LOGIN ')`, so it is not
parsed as a login attempt: it falls to the catch-all branch and is answered
`ERR must-login-first` (never `ERR invalid-username`). -/
theorem bare_login_rejected (st : ServerState) (c : Conn) (line : String)
    (hb : pyStrip line = "LOGIN") :
    handleLoginLine st c line = (st, [(c, "ERR must-login-first")], none) ∧
    pyStartsWith (pyStrip line) "LOGIN " = false := by
  unfold handleLoginLine
  rw [hb]
  exact ⟨by rw [if_neg (by decide), if_neg (by decide)], by decide⟩

/-- Witness for C9: the literal line `LOGIN`. -/
theorem bare_login_rejected_wit :
    handleLoginLine stWit 4 "LOGIN" = (stWit, [(4, "ERR must-login-first")], none) ∧
    pyStartsWith (pyStrip "LOGIN") "LOGIN " = false :=
  bare_login_rejected stWit 4 "LOGIN" (by decide)

/-- A string with the prefix `LOGIN ` is not empty. -/
theorem ne_empty_of_login_prefix {s : String}
    (h : pyStartsWith s "LOGIN " = true) : s ≠ "" := by
  intro he
  rw [he] at h
  exact absurd h (by decide)

/-- Claim C3: a `LOGIN <name>` line with a non-empty stripped name.  If the
name is already bound in `self.usernames` the reply is
`ERR username-taken` and the state (registry) is returned unchanged with no
username result (the session stays unauthenticated); otherwise the name is
bound in both registry maps in the same step as the uniqueness check, the
reply is `OK`, the username is returned (the session proceeds to the
authenticated loop), and afterwards the name resolves to this
connection. -/
theorem login_attempt_spec (st : ServerState) (c : Conn) (line : String)
    (hl : pyStartsWith (pyStrip line) "LOGIN " = true)
    (hn : loginName (pyStrip line) ≠ "") :
    ((lookupA st.usernames (loginName (pyStrip line))).isSome = true →
      handleLoginLine st c line = (st, [(c, "ERR username-taken")], none)) ∧
    (lookupA st.usernames (loginName (pyStrip line)) = none →
      handleLoginLine st c line =
        ({ clients := setA st.clients c (loginName (pyStrip line))
           usernames := setA st.usernames (loginName (pyStrip line)) c
           lastActivity := st.lastActivity },
         [(c, "OK")], some (loginName (pyStrip line))) ∧
      lookupA (setA st.usernames (loginName (pyStrip line)) c)
        (loginName (pyStrip line)) = some c) := by
  have h0 : pyStrip line ≠ "" := ne_empty_of_login_prefix hl
  constructor
  · intro htaken
    unfold handleLoginLine
    rw [if_neg h0, if_pos hl, if_neg hn, if_pos htaken]
  · intro hfree
    have hns : ¬ (lookupA st.usernames (loginName (pyStrip line))).isSome = true := by
      simp [hfree]
    refine ⟨?_, lookupA_setA_self _ _ _⟩
    unfold handleLoginLine
    rw [if_neg h0, if_pos hl, if_neg hn, if_neg hns]

/-- Witness for C3: `LOGIN alice` against the taken name `alice`, and
`LOGIN dave` against a free name. -/
theorem login_attempt_spec_wit :
    handleLoginLine stWit 4 "LOGIN alice" = (stWit, [(4, "ERR username-taken")], none) ∧
    (handleLoginLine stWit 4 "LOGIN dave" =
      ({ clients := [(1, "alice"), (2, "bob"), (3, "carol"), (4, "dave")]
         usernames := [("alice", 1), ("bob", 2), ("carol", 3), ("dave", 4)]
         lastActivity := [(1, 0), (2, 0), (3, 0)] },
       [(4, "OK")], some "dave") ∧
      lookupA [("alice", 1), ("bob", 2), ("carol", 3), ("dave", 4)] "dave" = some 4) :=
  ⟨(login_attempt_spec stWit 4 "LOGIN alice" (by decide) (by decide)).1 (by decide),
   (login_attempt_spec stWit 4 "LOGIN dave" (by decide) (by decide)).2 (by decide)⟩

/-- State discipline of the per-line login handler: every branch except a
successful `LOGIN` returns the registry unchanged, and a successful one
leaves the new username bound to the connection in `clients`. -/
theorem handleLoginLine_state (st : ServerState) (c : Conn) (line : String) :
    ((handleLoginLine st c line).2.2 = none → (handleLoginLine st c line).1 = st) ∧
    (∀ u, (handleLoginLine st c line).2.2 = some u →
      lookupA (handleLoginLine st c line).1.clients c = some u) := by
  unfold handleLoginLine
  split_ifs with h1 h2 h3 h4
  · exact ⟨fun _ => rfl, fun u hu => by simp at hu⟩
  · exact ⟨fun _ => rfl, fun u hu => by simp at hu⟩
  · exact ⟨fun _ => rfl, fun u hu => by simp at hu⟩
  · refine ⟨fun hn => by simp at hn, fun u hu => ?_⟩
    obtain rfl : loginName (pyStrip line) = u := by simpa using hu
    exact lookupA_setA_self _ _ _
  · exact ⟨fun _ => rfl, fun u hu => by simp at hu⟩

/-- Claim C2: on accept, `_handle_client` immediately records the
connection in the registry's activity map (`last_activity[conn] = now`)
while no username is bound to it (`conn` is absent from `clients`, as it is
for every connection that has not completed `LOGIN`); the connection
acquires a username exactly when a `LOGIN` line succeeds — non-successful
lines leave the registry untouched. -/
theorem accept_registers_unnamed (st : ServerState) (c : Conn) (now : Nat)
    (hc : lookupA st.clients c = none) :
    lookupA (touchActivity st c now).lastActivity c = some now ∧
    lookupA (touchActivity st c now).clients c = none ∧
    (∀ line,
      ((handleLoginLine (touchActivity st c now) c line).2.2 = none →
        (handleLoginLine (touchActivity st c now) c line).1 = touchActivity st c now) ∧
      (∀ u, (handleLoginLine (touchActivity st c now) c line).2.2 = some u →
        lookupA (handleLoginLine (touchActivity st c now) c line).1.clients c =
          some u)) :=
  ⟨lookupA_setA_self _ _ _, hc,
   fun line => handleLoginLine_state (touchActivity st c now) c line⟩

/-- Witness for C2: a fresh connection 4 accepted at time 42 in the
three-client registry. -/
theorem accept_registers_unnamed_wit :
    lookupA (touchActivity stWit 4 42).lastActivity 4 = some 42 ∧
    lookupA (touchActivity stWit 4 42).clients 4 = none := by
  have h := accept_registers_unnamed stWit 4 42 (by decide)
  exact ⟨h.1, h.2.1⟩

/-- Claim C10: a line that strips to the empty string is silently skipped
in both states — the authenticated loop dispatches nothing
(`if line:` fails), the login loop replies nothing (`if not line:
continue`), neither changes the registry — while the enclosing `recv`
still refreshed `last_activity[conn]`. -/
theorem blank_line_skipped (st : ServerState) (c : Conn) (u : String) (now : Nat)
    (line : String) (hb : pyStrip line = "") :
    handleClientLine st c u line = [] ∧
    handleLoginLine st c line = (st, [], none) ∧
    recvStepAuth st c u now [line] = (touchActivity st c now, []) ∧
    lookupA (touchActivity st c now).lastActivity c = some now := by
  refine ⟨?_, ?_, ?_, lookupA_setA_self _ _ _⟩
  · unfold handleClientLine
    rw [if_pos hb]
  · unfold handleLoginLine
    rw [if_pos hb]
  · unfold recvStepAuth
    simp [handleClientLine, hb]

/-- Witness for C10: the whitespace-only line at time 42. -/
theorem blank_line_skipped_wit :
    handleClientLine stWit 1 "alice" "   " = [] ∧
    handleLoginLine stWit 1 "   " = (stWit, [], none) ∧
    recvStepAuth stWit 1 "alice" 42 ["   "] = (touchActivity stWit 1 42, []) ∧
    lookupA (touchActivity stWit 1 42).lastActivity 1 = some 42 :=
  blank_line_skipped stWit 1 "alice" 42 "   " (by decide)

/-- Claim C1 (code bug): `_remove_client` is *not* idempotent in its
notification.  Starting from the three-client registry, tearing down
`alice` (connection 1) twice — as happens when the idle reaper evicts her
and her handler thread's `finally` block then runs `_remove_client` again
with its local `username` variable still set — performs no second removal
(the state is unchanged) but broadcasts `INFO alice disconnected` to every
remaining client a second time, because the broadcast is guarded only by
the truthiness of the `username` argument, not by whether this call
removed anything. -/
theorem teardown_double_broadcast :
    (removeClient stWit 1 (some "alice")).2 =
      [(2, "INFO alice disconnected"), (3, "INFO alice disconnected")] ∧
    (removeClient (removeClient stWit 1 (some "alice")).1 1 (some "alice")).1 =
      (removeClient stWit 1 (some "alice")).1 ∧
    (removeClient (removeClient stWit 1 (some "alice")).1 1 (some "alice")).2 =
      [(2, "INFO alice disconnected"), (3, "INFO alice disconnected")] := by
  decide

/-- Claim C8 counterexample: the failure of a send is not reported to the
caller.  `_send` on the dead connection 7 and `_send` on a healthy
connection give the caller identical information — no exception escapes and
the return value is `None` in both cases — so the caller cannot decide
anything based on the delivery failure. -/
theorem send_failure_unreported :
    (sendOp [7] 7 "x").delivered = false ∧
    (sendOp [7] 7 "x").raised = (sendOp [] 7 "x").raised ∧
    (sendOp [7] 7 "x").returned = (sendOp [] 7 "x").returned := by
  decide

/-- Claim C8 (amended): `_send` never lets a delivery failure raise out of
the operation — the exception is caught and only printed — and it reports
nothing back to the caller: the returned value is `None` whether or not
delivery succeeded. -/
theorem send_never_raises (dead : List Conn) (c : Conn) (message : String) :
    (sendOp dead c message).raised = false ∧
    (sendOp dead c message).returned = none := by
  unfold sendOp
  cases sendallRaw dead c message <;> simp

theorem lookupA_eq_none {α β : Type} [DecidableEq α] (l : List (α × β)) (k : α)
    (h : k ∉ l.map Prod.fst) : lookupA l k = none := by
  induction l with
  | nil => rfl
  | cons p t ih =>
    obtain ⟨a, b⟩ := p
    simp only [List.map_cons, List.mem_cons] at h
    push_neg at h
    rw [lookupA, if_neg (fun hh => h.1 hh.symm)]
    exact ih h.2

theorem delA_map_fst_sublist {α β : Type} [DecidableEq α] (l : List (α × β)) (k : α) :
    ((delA l k).map Prod.fst).Sublist (l.map Prod.fst) := by
  induction l with
  | nil => simp [delA]
  | cons p t ih =>
    obtain ⟨a, b⟩ := p
    by_cases h : a = k
    · simp only [delA, if_pos h, List.map_cons]
      exact List.sublist_cons_self _ _
    · simp only [delA, if_neg h, List.map_cons]
      exact ih.cons₂ a

theorem lookupA_delA_self {α β : Type} [DecidableEq α] (l : List (α × β)) (k : α)
    (hnd : (l.map Prod.fst).Nodup) : lookupA (delA l k) k = none := by
  induction l with
  | nil => rfl
  | cons p t ih =>
    obtain ⟨a, b⟩ := p
    simp only [List.map_cons, List.nodup_cons] at hnd
    obtain ⟨ha, hnd2⟩ := hnd
    by_cases h : a = k
    · rw [delA, if_pos h]
      exact lookupA_eq_none t k (h ▸ ha)
    · rw [delA, if_neg h, lookupA, if_neg h]
      exact ih hnd2

/-- Claim C7 counterexample: a stale *unnamed* session receives no
`ERR idle-timeout` notice at all.  Connection 5 is in `last_activity` with
age `100 - 0 > 60` (it is the cycle's one stale session) but has no entry
in `clients`, so `clients.get(conn)` is `None`, the `if username:` guard
skips the notice, and the cycle's only effect is the silent removal: its
attempted-send list is empty. -/
theorem reaper_unnamed_no_notice :
    ((⟨[], [], [(5, 0)]⟩ : ServerState).lastActivity.filter
      (fun p => 60 < 100 - p.2) = [(5, 0)]) ∧
    checkIdleCycle [] 60 100 ⟨[], [], [(5, 0)]⟩ = (⟨[], [], []⟩, []) := by
  decide

/-- Appending strings concatenates their character data. -/
theorem string_data_append (s r : String) : (s ++ r).data = s.data ++ r.data := rfl

/-- A disconnect broadcast is never the idle-timeout notice. -/
theorem info_msg_ne_idle (u : String) :
    ("INFO " ++ u ++ " disconnected") ≠ "ERR idle-timeout" := by
  intro h
  have h2 : ("INFO " ++ u ++ " disconnected").data = "ERR idle-timeout".data := by rw [h]
  have he1 : ("INFO " ++ u ++ " disconnected").data =
      ('I' :: "NFO ".data ++ u.data) ++ " disconnected".data := rfl
  rw [he1, List.cons_append, List.cons_append] at h2
  rw [show "ERR idle-timeout".data = 'E' :: "RR idle-timeout".data from rfl] at h2
  injection h2 with hch _
  exact absurd hch (by decide)

/-- Disconnect broadcasts for different usernames are different messages. -/
theorem info_msg_inj {u v : String}
    (h : ("INFO " ++ u ++ " disconnected") = ("INFO " ++ v ++ " disconnected")) : u = v := by
  have h2 := congrArg String.data h
  simp only [string_data_append] at h2
  exact congrArg String.mk (List.append_cancel_left (List.append_cancel_right h2))

theorem mem_of_lookupA {α β : Type} [DecidableEq α] :
    ∀ (l : List (α × β)) (k : α) (v : β), lookupA l k = some v → (k, v) ∈ l := by
  intro l
  induction l with
  | nil => intro k v h; simp [lookupA] at h
  | cons p t ih =>
    intro k v h
    obtain ⟨a, b⟩ := p
    rw [lookupA] at h
    by_cases hak : a = k
    · rw [if_pos hak] at h
      injection h with hbv
      subst hak
      subst hbv
      exact List.mem_cons_self _ _
    · rw [if_neg hak] at h
      exact List.mem_cons_of_mem _ (ih k v h)

theorem lookupA_eq_none_iff {α β : Type} [DecidableEq α] :
    ∀ (l : List (α × β)) (k : α), lookupA l k = none ↔ k ∉ l.map Prod.fst := by
  intro l
  induction l with
  | nil => intro k; simp [lookupA]
  | cons p t ih =>
    intro k
    obtain ⟨a, b⟩ := p
    by_cases hak : a = k
    · subst hak
      simp [lookupA]
    · have hka : ¬ k = a := fun hh => hak hh.symm
      simp [lookupA, hak, hka, ih]

/-- The state part of `_remove_client` deletes the connection from
`clients` whatever the username argument is. -/
theorem removeClient_clients (st : ServerState) (c : Conn) (uo : Option String) :
    (removeClient st c uo).1.clients = delA st.clients c := by
  cases uo <;> rfl

/-- The state part of `_remove_client` deletes the connection from
`last_activity` whatever the username argument is. -/
theorem removeClient_lastActivity (st : ServerState) (c : Conn) (uo : Option String) :
    (removeClient st c uo).1.lastActivity = delA st.lastActivity c := by
  cases uo <;> rfl

theorem removeClient_snd_some (st : ServerState) (c : Conn) (u : String) :
    (removeClient st c (some u)).2 =
      broadcastMsg (delA st.clients c) ("INFO " ++ u ++ " disconnected") none := rfl

theorem removeClient_snd_none (st : ServerState) (c : Conn) :
    (removeClient st c none).2 = [] := rfl

/-- The reaper's per-cycle eviction pass in recursive form: process the
snapshot entries in order, each contributing its (named-only) notice
followed by its `_remove_client` teardown events.  `checkIdleCycle` is
proved equal to it below; the recursive form drives the inductive
proofs. -/
def evictAll : ServerState → List (Conn × Option String) → ServerState × List (Conn × String)
  | st, [] => (st, [])
  | st, (c, uo) :: rest =>
    let r := removeClient st c uo
    let e := evictAll r.1 rest
    (e.1, (reaperNotice uo c ++ r.2) ++ e.2)

/-- The under-lock snapshot of `_check_idle_clients` (lines 322-326): the
stale `last_activity` entries paired with `clients.get(conn)`. -/
def staleSnapshot (idleTimeout now : Nat) (st : ServerState) :
    List (Conn × Option String) :=
  (st.lastActivity.filter (fun p => idleTimeout < now - p.2)).map
    (fun p => (p.1, lookupA st.clients p.1))

theorem evictAll_cons_fst (st : ServerState) (c : Conn) (uo : Option String)
    (rest : List (Conn × Option String)) :
    (evictAll st ((c, uo) :: rest)).1 = (evictAll (removeClient st c uo).1 rest).1 := rfl

theorem evictAll_cons_snd (st : ServerState) (c : Conn) (uo : Option String)
    (rest : List (Conn × Option String)) :
    (evictAll st ((c, uo) :: rest)).2 =
      (reaperNotice uo c ++ (removeClient st c uo).2) ++
        (evictAll (removeClient st c uo).1 rest).2 := rfl

/-- One reaper cycle is exactly the eviction pass over the under-lock
snapshot.  The dead set occurs only in the discarded send outcomes, so it
appears nowhere on the right-hand side. -/
theorem checkIdleCycle_eq_evictAll (dead : List Conn) (t n : Nat) (st : ServerState) :
    checkIdleCycle dead t n st = evictAll st (staleSnapshot t n st) := by
  have main : ∀ (l : List (Conn × Option String)) (st0 : ServerState)
      (out : List (Conn × String)),
      List.foldl (fun acc cu =>
        let _ := (reaperNotice cu.2 cu.1).map (fun e => sendOp dead e.1 e.2)
        let r := removeClient acc.1 cu.1 cu.2
        (r.1, acc.2 ++ reaperNotice cu.2 cu.1 ++ r.2)) (st0, out) l =
      ((evictAll st0 l).1, out ++ (evictAll st0 l).2) := by
    intro l
    induction l with
    | nil => intro st0 out; simp [evictAll]
    | cons p rest ih =>
      intro st0 out
      obtain ⟨c, uo⟩ := p
      exact (ih (removeClient st0 c uo).1
        (out ++ reaperNotice uo c ++ (removeClient st0 c uo).2)).trans
        (by simp [evictAll_cons_fst, evictAll_cons_snd, List.append_assoc])
  unfold checkIdleCycle
  exact (main _ st []).trans (by simp [staleSnapshot])

theorem evictAll_clients_sublist :
    ∀ (l : List (Conn × Option String)) (st : ServerState),
      ((evictAll st l).1.clients.map Prod.fst).Sublist (st.clients.map Prod.fst) := by
  intro l
  induction l with
  | nil => intro st; exact List.Sublist.refl _
  | cons p rest ih =>
    intro st
    obtain ⟨c, uo⟩ := p
    rw [evictAll_cons_fst]
    exact (ih _).trans (by rw [removeClient_clients]; exact delA_map_fst_sublist _ _)

theorem evictAll_lastActivity_sublist :
    ∀ (l : List (Conn × Option String)) (st : ServerState),
      ((evictAll st l).1.lastActivity.map Prod.fst).Sublist
        (st.lastActivity.map Prod.fst) := by
  intro l
  induction l with
  | nil => intro st; exact List.Sublist.refl _
  | cons p rest ih =>
    intro st
    obtain ⟨c, uo⟩ := p
    rw [evictAll_cons_fst]
    exact (ih _).trans (by rw [removeClient_lastActivity]; exact delA_map_fst_sublist _ _)

theorem evictAll_clients_lookup_none (l : List (Conn × Option String))
    (st : ServerState) (k : Conn) (h : lookupA st.clients k = none) :
    lookupA (evictAll st l).1.clients k = none := by
  rw [lookupA_eq_none_iff] at h ⊢
  exact fun hk => h ((evictAll_clients_sublist l st).subset hk)

theorem evictAll_lastActivity_lookup_none (l : List (Conn × Option String))
    (st : ServerState) (k : Conn) (h : lookupA st.lastActivity k = none) :
    lookupA (evictAll st l).1.lastActivity k = none := by
  rw [lookupA_eq_none_iff] at h ⊢
  exact fun hk => h ((evictAll_lastActivity_sublist l st).subset hk)

/-- Every snapshot entry is gone from both registry maps after the pass. -/
theorem evictAll_removes :
    ∀ (l : List (Conn × Option String)) (st : ServerState),
      (st.clients.map Prod.fst).Nodup → (st.lastActivity.map Prod.fst).Nodup →
      ∀ c uo, (c, uo) ∈ l →
        lookupA (evictAll st l).1.clients c = none ∧
        lookupA (evictAll st l).1.lastActivity c = none := by
  intro l
  induction l with
  | nil => intro st _ _ c uo h; simp at h
  | cons p rest ih =>
    intro st hndC hndA c uo hmem
    obtain ⟨c2, uo2⟩ := p
    have hC2 : ((removeClient st c2 uo2).1.clients.map Prod.fst).Nodup := by
      rw [removeClient_clients]
      exact (delA_map_fst_sublist _ _).nodup hndC
    have hA2 : ((removeClient st c2 uo2).1.lastActivity.map Prod.fst).Nodup := by
      rw [removeClient_lastActivity]
      exact (delA_map_fst_sublist _ _).nodup hndA
    rcases List.mem_cons.mp hmem with heq | hrest
    · injection heq with h1 h2
      subst h1
      rw [evictAll_cons_fst]
      constructor
      · apply evictAll_clients_lookup_none
        rw [removeClient_clients]
        exact lookupA_delA_self _ _ hndC
      · apply evictAll_lastActivity_lookup_none
        rw [removeClient_lastActivity]
        exact lookupA_delA_self _ _ hndA
    · rw [evictAll_cons_fst]
      exact ih _ hC2 hA2 c uo hrest

theorem count_broadcastMsg_ne_msg {m m2 : String} (l : List (Conn × String))
    (ex : Option Conn) (d : Conn) (h : m ≠ m2) :
    (broadcastMsg l m2 ex).count (d, m) = 0 :=
  List.count_eq_zero.mpr (fun hmem => h (mem_broadcastMsg hmem).2.1)

theorem count_reaperNotice_ne_msg (uo : Option String) (c2 d : Conn) {m : String}
    (h : m ≠ "ERR idle-timeout") : (reaperNotice uo c2).count (d, m) = 0 := by
  cases uo with
  | none => rfl
  | some u =>
    apply List.count_eq_zero.mpr
    intro hmem
    simp [reaperNotice] at hmem
    exact h hmem.2

theorem count_reaperNotice_ne_conn (uo : Option String) {c2 d : Conn} (m : String)
    (h : d ≠ c2) : (reaperNotice uo c2).count (d, m) = 0 := by
  cases uo with
  | none => rfl
  | some u =>
    apply List.count_eq_zero.mpr
    intro hmem
    simp [reaperNotice] at hmem
    exact h hmem.1

/-- No eviction in the pass carries username `u`, so nobody receives the
`INFO u disconnected` message. -/
theorem evictAll_count_info_zero :
    ∀ (l : List (Conn × Option String)) (st : ServerState) (u : String) (d : Conn),
      u ∉ l.filterMap Prod.snd →
      (evictAll st l).2.count (d, "INFO " ++ u ++ " disconnected") = 0 := by
  intro l
  induction l with
  | nil => intro st u d _; rfl
  | cons p rest ih =>
    intro st u d hu
    obtain ⟨c2, uo2⟩ := p
    rw [evictAll_cons_snd, List.count_append, List.count_append]
    cases uo2 with
    | none =>
      rw [List.filterMap_cons_none (show Prod.snd (c2, (none : Option String)) = none from rfl)] at hu
      rw [count_reaperNotice_ne_msg _ _ _ (info_msg_ne_idle u), removeClient_snd_none,
        List.count_nil, ih _ u d hu]
    | some u2 =>
      rw [List.filterMap_cons_some (show Prod.snd (c2, some u2) = some u2 from rfl)] at hu
      simp only [List.mem_cons] at hu
      push_neg at hu
      rw [count_reaperNotice_ne_msg _ _ _ (info_msg_ne_idle u), removeClient_snd_some,
        count_broadcastMsg_ne_msg _ _ _ (fun he => hu.1 (info_msg_inj he)),
        ih _ u d hu.2]

/-- A connection absent from the snapshot never receives (or appears as the
addressee of) an idle-timeout notice in the pass. -/
theorem evictAll_count_idle_zero :
    ∀ (l : List (Conn × Option String)) (st : ServerState) (d : Conn),
      d ∉ l.map Prod.fst →
      (evictAll st l).2.count (d, "ERR idle-timeout") = 0 := by
  intro l
  induction l with
  | nil => intro st d _; rfl
  | cons p rest ih =>
    intro st d hd
    obtain ⟨c2, uo2⟩ := p
    simp only [List.map_cons, List.mem_cons] at hd
    push_neg at hd
    rw [evictAll_cons_snd, List.count_append, List.count_append,
      count_reaperNotice_ne_conn _ _ hd.1, ih _ d hd.2]
    cases uo2 with
    | none =>
      rw [removeClient_snd_none, List.count_nil]
    | some u2 =>
      rw [removeClient_snd_some,
        count_broadcastMsg_ne_msg _ _ _ (fun he => info_msg_ne_idle u2 he.symm)]

/-- A snapshot entry receives the idle-timeout notice exactly once when it
is named and never when it is unnamed. -/
theorem evictAll_count_idle :
    ∀ (l : List (Conn × Option String)) (st : ServerState),
      (l.map Prod.fst).Nodup →
      ∀ c uo, (c, uo) ∈ l →
        (evictAll st l).2.count (c, "ERR idle-timeout") =
          (match uo with | some _ => 1 | none => 0) := by
  intro l
  induction l with
  | nil => intro st _ c uo h; simp at h
  | cons p rest ih =>
    intro st hnd c uo hmem
    obtain ⟨c2, uo2⟩ := p
    simp only [List.map_cons, List.nodup_cons] at hnd
    obtain ⟨hc2, hnd2⟩ := hnd
    rcases List.mem_cons.mp hmem with heq | hrest
    · injection heq with h1 h2
      subst h1
      subst h2
      rw [evictAll_cons_snd, List.count_append, List.count_append,
        evictAll_count_idle_zero rest _ c hc2]
      cases uo with
      | none =>
        rw [removeClient_snd_none]
        simp [reaperNotice]
      | some u =>
        rw [removeClient_snd_some,
          count_broadcastMsg_ne_msg _ _ _ (fun he => info_msg_ne_idle u he.symm)]
        simp [reaperNotice]
    · have hcmem : c ∈ rest.map Prod.fst := List.mem_map_of_mem Prod.fst hrest
      have hcc : c ≠ c2 := fun he => hc2 (he ▸ hcmem)
      rw [evictAll_cons_snd, List.count_append, List.count_append,
        count_reaperNotice_ne_conn _ _ hcc, ih _ hnd2 c uo hrest]
      cases uo2 with
      | none =>
        rw [removeClient_snd_none]
        simp
      | some u2 =>
        rw [removeClient_snd_some,
          count_broadcastMsg_ne_msg _ _ _ (fun he => info_msg_ne_idle u2 he.symm)]
        simp

/-- Each client that survives the whole pass receives the disconnect
broadcast of each evicted named session exactly once. -/
theorem evictAll_count_info :
    ∀ (l : List (Conn × Option String)) (st : ServerState),
      (st.clients.map Prod.fst).Nodup →
      (l.filterMap Prod.snd).Nodup →
      ∀ c u, (c, some u) ∈ l →
      ∀ d, d ∈ (evictAll st l).1.clients.map Prod.fst →
        (evictAll st l).2.count (d, "INFO " ++ u ++ " disconnected") = 1 := by
  intro l
  induction l with
  | nil => intro st _ _ c u hmem; simp at hmem
  | cons p rest ih =>
    intro st hndC hnames c u hmem d hd
    obtain ⟨c2, uo2⟩ := p
    rw [evictAll_cons_fst] at hd
    have hndC2 : ((removeClient st c2 uo2).1.clients.map Prod.fst).Nodup := by
      rw [removeClient_clients]
      exact (delA_map_fst_sublist _ _).nodup hndC
    rcases List.mem_cons.mp hmem with heq | hrest
    · injection heq with h1 h2
      subst h1
      subst h2
      rw [List.filterMap_cons_some (show Prod.snd (c, some u) = some u from rfl)] at hnames
      simp only [List.nodup_cons] at hnames
      obtain ⟨hu_not, hnames2⟩ := hnames
      rw [evictAll_cons_snd, List.count_append, List.count_append,
        count_reaperNotice_ne_msg _ _ _ (info_msg_ne_idle u),
        removeClient_snd_some,
        evictAll_count_info_zero rest _ u d hu_not]
      have hdmem : d ∈ (delA st.clients c).map Prod.fst := by
        have hsub := (evictAll_clients_sublist rest
          ((removeClient st c (some u)).1)).subset hd
        rwa [removeClient_clients] at hsub
      rw [count_broadcastMsg _ _ none d ((delA_map_fst_sublist _ _).nodup hndC)
        hdmem (by simp)]
    · have hu_mem : u ∈ rest.filterMap Prod.snd :=
        List.mem_filterMap.mpr ⟨(c, some u), hrest, rfl⟩
      cases uo2 with
      | none =>
        rw [List.filterMap_cons_none (show Prod.snd (c2, (none : Option String)) = none from rfl)] at hnames
        rw [evictAll_cons_snd, List.count_append, List.count_append,
          count_reaperNotice_ne_msg _ _ _ (info_msg_ne_idle u),
          removeClient_snd_none,
          ih _ hndC2 hnames c u hrest d hd]
        simp
      | some u2 =>
        rw [List.filterMap_cons_some (show Prod.snd (c2, some u2) = some u2 from rfl)] at hnames
        simp only [List.nodup_cons] at hnames
        obtain ⟨hu2_not, hnames2⟩ := hnames
        have hne : u ≠ u2 := fun he => hu2_not (he ▸ hu_mem)
        rw [evictAll_cons_snd, List.count_append, List.count_append,
          count_reaperNotice_ne_msg _ _ _ (info_msg_ne_idle u),
          removeClient_snd_some,
          count_broadcastMsg_ne_msg _ _ _ (fun he => hne (info_msg_inj he)),
          ih _ hndC2 hnames2 c u hrest d hd]

theorem mem_staleSnapshot (t n : Nat) (st : ServerState) (c : Conn) (last : Nat)
    (hmem : (c, last) ∈ st.lastActivity) (hst : t < n - last) :
    (c, lookupA st.clients c) ∈ staleSnapshot t n st := by
  unfold staleSnapshot
  exact List.mem_map_of_mem _ (List.mem_filter.mpr ⟨hmem, by simpa using hst⟩)

theorem staleSnapshot_fst_nodup (t n : Nat) (st : ServerState)
    (hndA : (st.lastActivity.map Prod.fst).Nodup) :
    ((staleSnapshot t n st).map Prod.fst).Nodup := by
  have h2 : ((st.lastActivity.filter (fun p => t < n - p.2)).map Prod.fst).Nodup :=
    ((List.filter_sublist _).map Prod.fst).nodup hndA
  have h3 : (staleSnapshot t n st).map Prod.fst =
      (st.lastActivity.filter (fun p => t < n - p.2)).map Prod.fst := by
    unfold staleSnapshot
    simp
  rwa [h3]

/-- Looking up distinct connections in a registry with unique username
values yields pairwise-distinct usernames. -/
theorem nodup_filterMap_lookupA (cls : List (Conn × String))
    (hv : (cls.map Prod.snd).Nodup) :
    ∀ (cs : List (Conn × Nat)), (cs.map Prod.fst).Nodup →
      (cs.filterMap (fun p => lookupA cls p.1)).Nodup := by
  intro cs
  induction cs with
  | nil => intro _; simp
  | cons q rest ih =>
    intro hnd
    obtain ⟨c, x⟩ := q
    simp only [List.map_cons, List.nodup_cons] at hnd
    obtain ⟨hc, hnd2⟩ := hnd
    cases hlk : lookupA cls c with
    | none =>
      rw [@List.filterMap_cons_none (Conn × Nat) String
        (fun p => lookupA cls p.1) (c, x) rest hlk]
      exact ih hnd2
    | some u =>
      rw [@List.filterMap_cons_some (Conn × Nat) String
        (fun p => lookupA cls p.1) (c, x) rest u hlk]
      refine List.nodup_cons.mpr ⟨?_, ih hnd2⟩
      intro hu
      obtain ⟨q2, hmem2, hlk2⟩ := List.mem_filterMap.mp hu
      obtain ⟨c2, x2⟩ := q2
      have hin1 : (c, u) ∈ cls := mem_of_lookupA _ _ _ hlk
      have hin2 : (c2, u) ∈ cls := mem_of_lookupA _ _ _ hlk2
      have hcc : c ≠ c2 := fun he => hc (he ▸ List.mem_map_of_mem Prod.fst hmem2)
      exact hcc (congrArg Prod.fst (List.inj_on_of_nodup_map hv hin1 hin2 rfl))

theorem staleSnapshot_names_nodup (t n : Nat) (st : ServerState)
    (hndU : (st.clients.map Prod.snd).Nodup)
    (hndA : (st.lastActivity.map Prod.fst).Nodup) :
    ((staleSnapshot t n st).filterMap Prod.snd).Nodup := by
  unfold staleSnapshot
  rw [List.filterMap_map]
  exact nodup_filterMap_lookupA st.clients hndU _
    (((List.filter_sublist _).map Prod.fst).nodup hndA)

/-- Claim C7 (amended): on each reaper cycle — one pass of
`_check_idle_clients`, at timeout `t` observed at time `n` — every session
whose last-activity age strictly exceeds the idle timeout is torn down,
disappearing from both the `clients` and `last_activity` maps; the whole
cycle is the same whatever set of connections is dead, so a failing notice
never prevents a teardown; a stale session that is named receives exactly
one attempted best-effort `ERR idle-timeout` notice while a stale session
that is still unnamed receives none; and for each evicted named session,
every client that survives the cycle receives its `INFO <name>
disconnected` broadcast exactly once (a stale client evicted later in the
same cycle also receives the earlier INFO messages, because each teardown
broadcasts to the clients present at that moment).  The hypotheses are the
Python dict invariants: unique keys in `clients` and `last_activity`, and
unique username values. -/
theorem reaper_cycle_spec (dead : List Conn) (t n : Nat) (st : ServerState)
    (hndC : (st.clients.map Prod.fst).Nodup)
    (hndU : (st.clients.map Prod.snd).Nodup)
    (hndA : (st.lastActivity.map Prod.fst).Nodup) :
    checkIdleCycle dead t n st = checkIdleCycle [] t n st ∧
    (∀ c last, (c, last) ∈ st.lastActivity → t < n - last →
      lookupA (checkIdleCycle dead t n st).1.clients c = none ∧
      lookupA (checkIdleCycle dead t n st).1.lastActivity c = none) ∧
    (∀ c last, (c, last) ∈ st.lastActivity → t < n - last →
      (checkIdleCycle dead t n st).2.count (c, "ERR idle-timeout") =
        (match lookupA st.clients c with | some _ => 1 | none => 0)) ∧
    (∀ c last u, (c, last) ∈ st.lastActivity → t < n - last →
      lookupA st.clients c = some u →
      ∀ d, d ∈ (checkIdleCycle dead t n st).1.clients.map Prod.fst →
        (checkIdleCycle dead t n st).2.count
          (d, "INFO " ++ u ++ " disconnected") = 1) := by
  have hb := checkIdleCycle_eq_evictAll dead t n st
  have hb0 := checkIdleCycle_eq_evictAll [] t n st
  refine ⟨hb.trans hb0.symm, ?_, ?_, ?_⟩
  · intro c last hm hs
    rw [hb]
    exact evictAll_removes _ st hndC hndA c _ (mem_staleSnapshot t n st c last hm hs)
  · intro c last hm hs
    rw [hb]
    exact evictAll_count_idle _ st (staleSnapshot_fst_nodup t n st hndA) c _
      (mem_staleSnapshot t n st c last hm hs)
  · intro c last u hm hs hu d hd
    rw [hb] at hd ⊢
    have hmem := mem_staleSnapshot t n st c last hm hs
    rw [hu] at hmem
    exact evictAll_count_info _ st hndC (staleSnapshot_names_nodup t n st hndU hndA)
      c u hmem d hd

/-- The reaper-witness registry: `alice` idle since time 10 and `bob` idle
since time 20 (both stale at time 100 with a 60-second timeout), `carol`
active at time 90. -/
def stReap : ServerState :=
  { clients := [(1, "alice"), (2, "bob"), (3, "carol")]
    usernames := [("alice", 1), ("bob", 2), ("carol", 3)]
    lastActivity := [(1, 10), (2, 20), (3, 90)] }

/-- Witness for C7 (amended): a cycle evicting the two idle named sessions
`alice` and `bob` at once, with `alice`'s connection already dead
(`dead = [1]`); the surviving `carol` receives each INFO exactly once. -/
theorem reaper_cycle_spec_wit :
    checkIdleCycle [1] 60 100 stReap = checkIdleCycle [] 60 100 stReap ∧
    lookupA (checkIdleCycle [1] 60 100 stReap).1.clients 1 = none ∧
    lookupA (checkIdleCycle [1] 60 100 stReap).1.lastActivity 2 = none ∧
    (checkIdleCycle [1] 60 100 stReap).2.count (1, "ERR idle-timeout") = 1 ∧
    (checkIdleCycle [1] 60 100 stReap).2.count (2, "ERR idle-timeout") = 1 ∧
    (checkIdleCycle [1] 60 100 stReap).2.count
      (3, "INFO " ++ "alice" ++ " disconnected") = 1 ∧
    (checkIdleCycle [1] 60 100 stReap).2.count
      (3, "INFO " ++ "bob" ++ " disconnected") = 1 := by
  have h := reaper_cycle_spec [1] 60 100 stReap (by decide) (by decide) (by decide)
  refine ⟨h.1, (h.2.1 1 10 (by decide) (by decide)).1,
    (h.2.1 2 20 (by decide) (by decide)).2, ?_, ?_,
    h.2.2.2 1 10 "alice" (by decide) (by decide) (by decide) 3 (by decide),
    h.2.2.2 2 20 "bob" (by decide) (by decide) (by decide) 3 (by decide)⟩
  · exact (h.2.2.1 1 10 (by decide) (by decide)).trans (by decide)
  · exact (h.2.2.1 2 20 (by decide) (by decide)).trans (by decide)

end ChatSrv
